import Mathlib

/-!
Verification of the monthly-review plugin core (`src/main.ts`).

Strings are modelled as `List Char`.  The two JavaScript string operations
used by the code are modelled faithfully:

* `String.prototype.includes(pat)` is substring containment, i.e. `pat <:+: s`;
* `String.prototype.replace(search, repl)` with string arguments replaces the
  first occurrence of `search`, and the replacement string is processed by the
  ECMAScript `GetSubstitution` algorithm, which expands the escape sequences
  `$$` (a dollar sign), `$&` (the matched text), a dollar sign followed by a
  backquote (the text before the match) and a dollar sign followed by a quote
  (the text after the match); every other occurrence of a dollar sign is
  copied literally (with a string search pattern there are no capture groups).
-/

namespace MonthlyReview

/-- Characters of a string literal. -/
def cs (s : String) : List Char := s.data

/-- The newline inserted by the code (`"\n"`). -/
def nl : List Char := ['\n']

/-- The backquote character (used by the `GetSubstitution` escape for the
text preceding the match). -/
def bqChar : Char := Char.ofNat 96

/-- The single-quote character (used by the `GetSubstitution` escape for the
text following the match). -/
def sqChar : Char := Char.ofNat 39

/-- The link line `reviewLinePrefix + "[[" + noteLink + "]]"` (main.ts
line 144); `pre` is the configured line prefix, `lnk` the link text. -/
def lineOf (pre lnk : List Char) : List Char := pre ++ ['[', '['] ++ lnk ++ [']', ']']

/-- ECMAScript `GetSubstitution` for a string search pattern (no captures):
`m` is the matched text, `b` the text before the match, `a` the text after
the match; the argument is the replacement template. -/
def getSubstitution (m b a : List Char) : List Char → List Char
  | [] => []
  | [c] => [c]
  | c :: d :: rest =>
    if c = '$' then
      if d = '$' then c :: getSubstitution m b a rest
      else if d = '&' then m ++ getSubstitution m b a rest
      else if d = bqChar then b ++ getSubstitution m b a rest
      else if d = sqChar then a ++ getSubstitution m b a rest
      else c :: getSubstitution m b a (d :: rest)
    else c :: getSubstitution m b a (d :: rest)

/-- Split `s` at the first occurrence of `pat`: returns `some (b, a)` with
`s = b ++ pat ++ a` and `b` shortest possible, or `none` when `pat` does not
occur in `s` (mirrors `String.prototype.indexOf`). -/
def splitFirst (pat : List Char) : List Char → Option (List Char × List Char)
  | [] => if pat = [] then some ([], []) else none
  | c :: rest =>
    if pat <+: (c :: rest) then some ([], (c :: rest).drop pat.length)
    else
      match splitFirst pat rest with
      | some (b, a) => some (c :: b, a)
      | none => none

/-- JavaScript `s.replace(pat, tmpl)` with string arguments: replace the
first occurrence of `pat` by the `GetSubstitution`-expansion of `tmpl`;
return `s` unchanged when `pat` does not occur. -/
def replaceFirstJS (s pat tmpl : List Char) : List Char :=
  match splitFirst pat s with
  | none => s
  | some (b, a) => b ++ getSubstitution pat b a tmpl ++ a

/-- Holds (as `true`) iff the replacement template contains none of the four
`GetSubstitution` escape sequences, so that it is expanded to itself. -/
def escFreeB : List Char → Bool
  | [] => true
  | [_] => true
  | c :: d :: rest =>
    if c = '$' ∧ (d = '$' ∨ d = '&' ∨ d = bqChar ∨ d = sqChar) then false
    else escFreeB (d :: rest)

/-- The section-append computation of `addLinkInMonthlyNote`
(main.ts lines 144-155): `currentText` is the monthly note's text, `heading`
the review section heading, `pre` the line prefix, `lnk` the link text. -/
def computeAppend (currentText heading pre lnk : List Char) : List Char :=
  let link := lineOf pre lnk
  if heading <:+: currentText then
    if link <:+: currentText then currentText
    else replaceFirstJS currentText heading (heading ++ nl ++ link)
  else currentText ++ nl ++ heading ++ nl ++ link

/-- Number of positions at which `pat` occurs in a list (occurrences may
overlap; for the empty pattern every position counts). -/
def countOcc (pat : List Char) : List Char → Nat
  | [] => if pat = [] then 1 else 0
  | c :: rest => (if pat <+: (c :: rest) then 1 else 0) + countOcc pat rest

/-- The failure modes of the note resolver (spec section 7). -/
inductive ResolveError where
  | collectionUnavailable : ResolveError
  | creationFailed : ResolveError
deriving DecidableEq, Repr

/-- Observable outcome of `getOrCreateMonthlyNote`: the returned note or the
failure, the arguments of every `createMonthlyNote` invocation (in order),
and the user notifications shown. -/
structure ResolveOutcome (π ν : Type) where
  result : Except ResolveError ν
  created : List π
  notices : List String

/-- Model of `getOrCreateMonthlyNote` (main.ts lines 20-43).  The externals are
parameters: `getAllMonthlyNotes` is the outcome of enumerating the note
collection (`.error` when it throws), `getMonthlyNote` the lookup in the
collection, `createMonthlyNote` the outcome of a creation request. -/
def getOrCreateMonthlyNote (startOfMonth : π)
    (getAllMonthlyNotes : Except Unit γ)
    (getMonthlyNote : π → γ → Option ν)
    (createMonthlyNote : π → Except Unit ν) : ResolveOutcome π ν :=
  match getAllMonthlyNotes with
  | .error _ =>
    ⟨.error .collectionUnavailable, [], ["Failed to find your monthly notes folder"]⟩
  | .ok allNotes =>
    match getMonthlyNote startOfMonth allNotes with
    | some note => ⟨.ok note, [], []⟩
    | none =>
      match createMonthlyNote startOfMonth with
      | .ok note => ⟨.ok note, [startOfMonth], []⟩
      | .error _ =>
        ⟨.error .creationFailed, [startOfMonth],
          ["Failed to create monthly note in notes folder"]⟩

/-- Observable outcome of `addLinkInMonthlyNote`: `createMonthlyNote`
invocations, the notes whose text was read, the writes performed
(note, new text), and the notifications shown. -/
structure AddLinkOutcome (π ν : Type) where
  created : List π
  reads : List ν
  writes : List (ν × List Char)
  notices : List String

/-- Model of `addLinkInMonthlyNote` (main.ts lines 115-159).  `present` is whether the
periodic-notes plugin is installed, `readNote` the document store's read,
`heading`/`pre` the configured section heading and line prefix, `noteLink`
the link text of the active note, `noteName`/`basename` the display names
used in the success notification. -/
def addLinkInMonthlyNote (present : Bool) (startOfMonth : π)
    (getAllMonthlyNotes : Except Unit γ)
    (getMonthlyNote : π → γ → Option ν)
    (createMonthlyNote : π → Except Unit ν)
    (readNote : ν → List Char)
    (heading pre noteLink : List Char)
    (noteName basename : String) : AddLinkOutcome π ν :=
  if present then
    let r := getOrCreateMonthlyNote startOfMonth getAllMonthlyNotes
      getMonthlyNote createMonthlyNote
    match r.result with
    | .error _ => ⟨r.created, [], [], r.notices⟩
    | .ok note =>
      let previousNoteText := readNote note
      let link := lineOf pre noteLink
      let successNotice :=
        "Add note \"" ++ noteName ++ "\" for review on " ++ basename ++ "."
      if heading <:+: previousNoteText then
        if link <:+: previousNoteText then
          ⟨r.created, [note], [], r.notices ++ [successNotice]⟩
        else
          ⟨r.created, [note],
            [(note, replaceFirstJS previousNoteText heading (heading ++ nl ++ link))],
            r.notices ++ [successNotice]⟩
      else
        ⟨r.created, [note],
          [(note, previousNoteText ++ nl ++ heading ++ nl ++ link)],
          r.notices ++ [successNotice]⟩
  else
    ⟨[], [], [],
      ["The Periodic Notes plugin is not available. Please make sure it is installed and enabled before trying again."]⟩

/-! ## Helper lemmas -/

/-- When the replacement template contains no escape sequence,
`GetSubstitution` copies it unchanged. -/
theorem getSubstitution_of_escFree (m b a : List Char) :
    ∀ tmpl, escFreeB tmpl = true → getSubstitution m b a tmpl = tmpl
  | [], _ => rfl
  | [c], _ => rfl
  | c :: d :: rest, h => by
    rw [escFreeB] at h
    rw [getSubstitution]
    by_cases hc : c = '$'
    · have hd : ¬(d = '$' ∨ d = '&' ∨ d = bqChar ∨ d = sqChar) := by
        intro hd
        rw [if_pos ⟨hc, hd⟩] at h
        exact Bool.false_ne_true h
      have h2 : escFreeB (d :: rest) = true := by
        rwa [if_neg (fun hcd => hd hcd.2)] at h
      push_neg at hd
      obtain ⟨hd1, hd2, hd3, hd4⟩ := hd
      rw [if_pos hc, if_neg hd1, if_neg hd2, if_neg hd3, if_neg hd4,
        getSubstitution_of_escFree m b a (d :: rest) h2]
    · have h2 : escFreeB (d :: rest) = true := by
        rwa [if_neg (fun hcd => hc hcd.1)] at h
      rw [if_neg hc, getSubstitution_of_escFree m b a (d :: rest) h2]

/-- A successful `splitFirst` is a decomposition of the input. -/
theorem splitFirst_eq_decomp (pat : List Char) :
    ∀ s b a, splitFirst pat s = some (b, a) → s = b ++ pat ++ a
  | [], b, a, h => by
    rw [splitFirst] at h
    by_cases hp : pat = []
    · rw [if_pos hp] at h
      obtain ⟨h1, h2⟩ := Prod.mk.injEq .. ▸ Option.some.injEq .. ▸ h
      subst hp; rw [← h1, ← h2]; rfl
    · rw [if_neg hp] at h
      exact absurd h (by simp)
  | c :: rest, b, a, h => by
    rw [splitFirst] at h
    by_cases hp : pat <+: (c :: rest)
    · rw [if_pos hp] at h
      obtain ⟨w, hw⟩ := hp
      have h1 : ([] : List Char) = b ∧ (c :: rest).drop pat.length = a := by
        constructor
        · exact congrArg Prod.fst (Option.some.inj h)
        · exact congrArg Prod.snd (Option.some.inj h)
      obtain ⟨hb, ha⟩ := h1
      subst hb
      rw [← ha, ← hw, List.drop_left, List.nil_append]
    · rw [if_neg hp] at h
      cases hsp : splitFirst pat rest with
      | none => rw [hsp] at h; exact absurd h (by simp)
      | some p =>
        obtain ⟨b', a'⟩ := p
        rw [hsp] at h
        have hb : c :: b' = b := congrArg Prod.fst (Option.some.inj h)
        have ha : a' = a := congrArg Prod.snd (Option.some.inj h)
        have ih := splitFirst_eq_decomp pat rest b' a' hsp
        rw [← hb, ← ha, ih]
        rfl

/-- When the pattern occurs in the input, `splitFirst` succeeds. -/
theorem splitFirst_isSome_of_infix (pat : List Char) :
    ∀ s, pat <:+: s → ∃ b a, splitFirst pat s = some (b, a)
  | [], h => by
    have hp : pat = [] := List.infix_nil.mp h
    exact ⟨[], [], by rw [splitFirst, if_pos hp]⟩
  | c :: rest, h => by
    by_cases hp : pat <+: (c :: rest)
    · exact ⟨[], _, by rw [splitFirst, if_pos hp]⟩
    · have h2 : pat <:+: rest := (List.infix_cons_iff.mp h).resolve_left hp
      obtain ⟨b, a, hba⟩ := splitFirst_isSome_of_infix pat rest h2
      exact ⟨c :: b, a, by rw [splitFirst, if_neg hp, hba]⟩

/-- When `b` marks the earliest occurrence of `pat`, `splitFirst` returns
exactly that decomposition. -/
theorem splitFirst_of_first (pat : List Char) :
    ∀ b a, (∀ b2 a2, b ++ pat ++ a = b2 ++ pat ++ a2 → b.length ≤ b2.length) →
      splitFirst pat (b ++ pat ++ a) = some (b, a)
  | [], a, _ => by
    rw [List.nil_append]
    cases hpa : pat ++ a with
    | nil =>
      obtain ⟨hp, ha⟩ := List.append_eq_nil.mp hpa
      subst hp; subst ha
      rw [splitFirst, if_pos rfl]
    | cons c rest =>
      rw [splitFirst, if_pos ⟨a, hpa⟩, ← hpa, List.drop_left]
  | c :: b', a, hmin => by
    have hsplit : (c :: b') ++ pat ++ a = c :: (b' ++ pat ++ a) := by simp
    have hnp : ¬ pat <+: c :: (b' ++ pat ++ a) := by
      intro hp
      obtain ⟨w, hw⟩ := hp
      have hlen := hmin [] w (by rw [List.nil_append, hsplit]; exact hw.symm)
      simp at hlen
    have hmin' : ∀ b2 a2, b' ++ pat ++ a = b2 ++ pat ++ a2 → b'.length ≤ b2.length := by
      intro b2 a2 he
      have hlen := hmin (c :: b2) a2 (by simp only [List.cons_append, List.append_assoc] at he ⊢; rw [he])
      simpa using hlen
    rw [hsplit, splitFirst, if_neg hnp, splitFirst_of_first pat b' a hmin']

/-- JavaScript `replace` on a string that contains the pattern, with an
escape-free replacement: some first-occurrence decomposition is rewritten. -/
theorem replaceFirstJS_spec (s pat tmpl : List Char) (hs : pat <:+: s)
    (hesc : escFreeB tmpl = true) :
    ∃ b a, s = b ++ pat ++ a ∧ replaceFirstJS s pat tmpl = b ++ tmpl ++ a := by
  obtain ⟨b, a, hba⟩ := splitFirst_isSome_of_infix pat s hs
  refine ⟨b, a, splitFirst_eq_decomp pat s b a hba, ?_⟩
  rw [replaceFirstJS, hba]
  show b ++ getSubstitution pat b a tmpl ++ a = b ++ tmpl ++ a
  rw [getSubstitution_of_escFree _ _ _ _ hesc]

/-- JavaScript `replace` rewrites exactly the first occurrence when the
replacement template is escape-free. -/
theorem replaceFirstJS_first (pat tmpl b a : List Char) (hesc : escFreeB tmpl = true)
    (hmin : ∀ b2 a2, b ++ pat ++ a = b2 ++ pat ++ a2 → b.length ≤ b2.length) :
    replaceFirstJS (b ++ pat ++ a) pat tmpl = b ++ tmpl ++ a := by
  rw [replaceFirstJS, splitFirst_of_first pat b a hmin]
  show b ++ getSubstitution pat b a tmpl ++ a = b ++ tmpl ++ a
  rw [getSubstitution_of_escFree _ _ _ _ hesc]

/-- The heading-present, link-present branch returns the text unchanged. -/
theorem computeAppend_eq_self (t h pre lnk : List Char) (hh : h <:+: t)
    (hl : lineOf pre lnk <:+: t) : computeAppend t h pre lnk = t := by
  rw [computeAppend]
  simp only [if_pos hh, if_pos hl]

/-- The heading-present, link-absent branch inserts the link line right
after some occurrence of the heading (escape-free template). -/
theorem computeAppend_insert (t h pre lnk : List Char) (hh : h <:+: t)
    (hl : ¬ lineOf pre lnk <:+: t)
    (hesc : escFreeB (h ++ nl ++ lineOf pre lnk) = true) :
    ∃ b a, t = b ++ h ++ a ∧
      computeAppend t h pre lnk = b ++ h ++ nl ++ lineOf pre lnk ++ a := by
  obtain ⟨b, a, hdec, hrepl⟩ := replaceFirstJS_spec t h (h ++ nl ++ lineOf pre lnk) hh hesc
  refine ⟨b, a, hdec, ?_⟩
  rw [computeAppend]
  simp only [if_pos hh, if_neg hl]
  rw [hrepl]
  simp [List.append_assoc]

/-- The heading-absent branch appends a brand-new section. -/
theorem computeAppend_append (t h pre lnk : List Char) (hh : ¬ h <:+: t) :
    computeAppend t h pre lnk = t ++ nl ++ h ++ nl ++ lineOf pre lnk := by
  rw [computeAppend]
  simp only [if_neg hh]

/-- The heading occurs in the output of `computeAppend` (escape-free case). -/
theorem computeAppend_has_heading (t h pre lnk : List Char)
    (hesc : escFreeB (h ++ nl ++ lineOf pre lnk) = true) :
    h <:+: computeAppend t h pre lnk := by
  by_cases hh : h <:+: t
  · by_cases hl : lineOf pre lnk <:+: t
    · rw [computeAppend_eq_self t h pre lnk hh hl]; exact hh
    · obtain ⟨b, a, _, heq⟩ := computeAppend_insert t h pre lnk hh hl hesc
      rw [heq]
      exact ⟨b, nl ++ lineOf pre lnk ++ a, by simp⟩
  · rw [computeAppend_append t h pre lnk hh]
    exact ⟨t ++ nl, nl ++ lineOf pre lnk, by simp⟩

/-- The link line occurs in the output of `computeAppend` (escape-free case). -/
theorem computeAppend_has_line (t h pre lnk : List Char)
    (hesc : escFreeB (h ++ nl ++ lineOf pre lnk) = true) :
    lineOf pre lnk <:+: computeAppend t h pre lnk := by
  by_cases hh : h <:+: t
  · by_cases hl : lineOf pre lnk <:+: t
    · rw [computeAppend_eq_self t h pre lnk hh hl]; exact hl
    · obtain ⟨b, a, _, heq⟩ := computeAppend_insert t h pre lnk hh hl hesc
      rw [heq]
      exact ⟨b ++ h ++ nl, a, by simp⟩
  · rw [computeAppend_append t h pre lnk hh]
    exact ⟨t ++ nl ++ h ++ nl, [], by simp⟩

/-- The appender is idempotent when the template is escape-free. -/
theorem computeAppend_idem (t h pre lnk : List Char)
    (hesc : escFreeB (h ++ nl ++ lineOf pre lnk) = true) :
    computeAppend (computeAppend t h pre lnk) h pre lnk = computeAppend t h pre lnk :=
  computeAppend_eq_self _ h pre lnk
    (computeAppend_has_heading t h pre lnk hesc)
    (computeAppend_has_line t h pre lnk hesc)

/-- A pattern occurring in a list is counted at least once. -/
theorem countOcc_pos (pat : List Char) :
    ∀ s, pat <:+: s → 1 ≤ countOcc pat s
  | [], h => by
    have hp : pat = [] := List.infix_nil.mp h
    subst hp
    simp [countOcc]
  | c :: rest, h => by
    rcases List.infix_cons_iff.mp h with hp | hi
    · rw [countOcc, if_pos hp]
      exact Nat.le_add_right 1 _
    · have ih := countOcc_pos pat rest hi
      rw [countOcc]
      exact le_trans ih (Nat.le_add_left _ _)

/-- Occurrence counts on the two halves of an append are preserved
(a nonempty pattern may gain occurrences across the seam, never lose any). -/
theorem countOcc_append_ge (pat : List Char) (hne : pat ≠ []) :
    ∀ u v, countOcc pat u + countOcc pat v ≤ countOcc pat (u ++ v)
  | [], v => by simp [countOcc, hne]
  | c :: u', v => by
    have ih := countOcc_append_ge pat hne u' v
    rw [List.cons_append, countOcc, countOcc]
    have hmono : (if pat <+: (c :: u') then (1 : Nat) else 0) ≤
        (if pat <+: (c :: (u' ++ v)) then 1 else 0) := by
      by_cases hp : pat <+: (c :: u')
      · have hp2 : pat <+: c :: (u' ++ v) := hp.trans ⟨v, by simp⟩
        rw [if_pos hp, if_pos hp2]
      · rw [if_neg hp]
        exact Nat.zero_le _
    omega

/-- The link line is never the empty string. -/
theorem lineOf_ne_nil (pre lnk : List Char) : lineOf pre lnk ≠ [] := by
  simp [lineOf]

/-! ## Claims -/

/-- C1, counterexample: the section-append computation is not idempotent as
claimed for every input.  With `currentText = "H"`, `heading = "H"`,
`linePrefix = ""` and `linkText = "$&"`, JavaScript `replace` expands the
`$&` escape in the replacement string to the matched heading, so the first
application yields `"H\n[[H]]"`, which does not contain the link line
`"[[$&]]"`; the second application therefore inserts again, yielding
`"H\n[[H]]\n[[H]]"`. -/
theorem computeAppend_not_idempotent_cex :
    computeAppend (computeAppend (cs "H") (cs "H") (cs "") (cs "$&"))
        (cs "H") (cs "") (cs "$&") ≠
      computeAppend (cs "H") (cs "H") (cs "") (cs "$&") := by decide

/-- C1, amended: whenever the replacement template
`heading ++ "\n" ++ line` contains none of the JavaScript replacement
escapes, applying the section-append computation twice in succession yields
the same text as applying it once. -/
theorem computeAppend_idempotent_of_escapeFree (t h pre lnk : List Char)
    (hesc : escFreeB (h ++ nl ++ lineOf pre lnk) = true) :
    computeAppend (computeAppend t h pre lnk) h pre lnk =
      computeAppend t h pre lnk :=
  computeAppend_idem t h pre lnk hesc

/-- C1, witness at `currentText = "x"`, `heading = "## Links"`,
`linePrefix = "- "`, `linkText = "A"`. -/
theorem computeAppend_idempotent_of_escapeFree_witness :
    escFreeB (cs "## Links" ++ nl ++ lineOf (cs "- ") (cs "A")) = true ∧
    computeAppend (computeAppend (cs "x") (cs "## Links") (cs "- ") (cs "A"))
        (cs "## Links") (cs "- ") (cs "A") =
      computeAppend (cs "x") (cs "## Links") (cs "- ") (cs "A") :=
  ⟨by decide,
    computeAppend_idempotent_of_escapeFree (cs "x") (cs "## Links") (cs "- ") (cs "A")
      (by decide)⟩

/-- C2, counterexample: with `currentText = "H"`, `heading = "H"`,
`linePrefix = ""`, `linkText = "$&"` the heading is contained and the link
line `"[[$&]]"` is not, yet the computation does not return the text with
the first occurrence of the heading replaced by
`heading ++ "\n" ++ line` (it returns `"H\n[[H]]"` because JavaScript
`replace` expands the `$&` escape). -/
theorem computeAppend_first_occurrence_cex :
    (cs "H" <:+: cs "H") ∧ ¬ (lineOf (cs "") (cs "$&") <:+: cs "H") ∧
    computeAppend (cs "H") (cs "H") (cs "") (cs "$&") ≠
      cs "H" ++ nl ++ lineOf (cs "") (cs "$&") := by decide

/-- C2, amended: when `heading ++ "\n" ++ line` contains no JavaScript
replacement escape, a text that contains the heading but not the link line
is returned with exactly its first heading occurrence (the decomposition
`t = b ++ h ++ a` with `b` shortest) replaced by `heading ++ "\n" ++ line`,
all other text unchanged. -/
theorem computeAppend_replaces_first_occurrence (t h pre lnk b a : List Char)
    (hesc : escFreeB (h ++ nl ++ lineOf pre lnk) = true)
    (hl : ¬ lineOf pre lnk <:+: t)
    (hdec : t = b ++ h ++ a)
    (hmin : ∀ b2 a2, t = b2 ++ h ++ a2 → b.length ≤ b2.length) :
    computeAppend t h pre lnk = b ++ h ++ nl ++ lineOf pre lnk ++ a := by
  have hh : h <:+: t := ⟨b, a, hdec.symm⟩
  rw [computeAppend]
  simp only [if_pos hh, if_neg hl]
  subst hdec
  have hfst := replaceFirstJS_first h (h ++ nl ++ lineOf pre lnk) b a hesc hmin
  rw [hfst]
  simp [List.append_assoc]

/-- C2, witness at the spec's example
`computeAppend("## Links\nfoo", "## Links", "- ", "A")`, whose heading
occurrence starts at position 0; the result is `"## Links\n- [[A]]\nfoo"`. -/
theorem computeAppend_replaces_first_occurrence_witness :
    escFreeB (cs "## Links" ++ nl ++ lineOf (cs "- ") (cs "A")) = true ∧
    ¬ (lineOf (cs "- ") (cs "A") <:+: cs "## Links\nfoo") ∧
    cs "## Links\nfoo" = [] ++ cs "## Links" ++ cs "\nfoo" ∧
    computeAppend (cs "## Links\nfoo") (cs "## Links") (cs "- ") (cs "A") =
      [] ++ cs "## Links" ++ nl ++ lineOf (cs "- ") (cs "A") ++ cs "\nfoo" :=
  ⟨by decide, by decide, by decide,
    computeAppend_replaces_first_occurrence (cs "## Links\nfoo") (cs "## Links")
      (cs "- ") (cs "A") [] (cs "\nfoo") (by decide) (by decide) (by decide)
      (fun _ _ _ => Nat.zero_le _)⟩

/-- C3: when the text contains the heading and already contains the link
line anywhere, the computation returns the text unchanged. -/
theorem computeAppend_suppresses_duplicate (t h pre lnk : List Char)
    (hh : h <:+: t) (hl : lineOf pre lnk <:+: t) :
    computeAppend t h pre lnk = t :=
  computeAppend_eq_self t h pre lnk hh hl

/-- C3, witness at the spec's example
`computeAppend("## Links\n- [[A]]", "## Links", "- ", "A")`. -/
theorem computeAppend_suppresses_duplicate_witness :
    (cs "## Links" <:+: cs "## Links\n- [[A]]") ∧
    (lineOf (cs "- ") (cs "A") <:+: cs "## Links\n- [[A]]") ∧
    computeAppend (cs "## Links\n- [[A]]") (cs "## Links") (cs "- ") (cs "A") =
      cs "## Links\n- [[A]]" :=
  ⟨by decide, by decide,
    computeAppend_suppresses_duplicate (cs "## Links\n- [[A]]") (cs "## Links")
      (cs "- ") (cs "A") (by decide) (by decide)⟩

/-- C4: when the text does not contain the heading, the computation returns
`currentText ++ "\n" ++ heading ++ "\n" ++ line`, with exactly one newline
before the heading whatever the text ends in. -/
theorem computeAppend_appends_new_section (t h pre lnk : List Char)
    (hh : ¬ h <:+: t) :
    computeAppend t h pre lnk = t ++ nl ++ h ++ nl ++ lineOf pre lnk :=
  computeAppend_append t h pre lnk hh

/-- C4, witness at the spec's empty-document example
`computeAppend("", "## Links", "- ", "A") = "\n## Links\n- [[A]]"`. -/
theorem computeAppend_appends_new_section_witness :
    ¬ (cs "## Links" <:+: cs "") ∧
    computeAppend (cs "") (cs "## Links") (cs "- ") (cs "A") =
      cs "" ++ nl ++ cs "## Links" ++ nl ++ lineOf (cs "- ") (cs "A") :=
  ⟨by decide,
    computeAppend_appends_new_section (cs "") (cs "## Links") (cs "- ") (cs "A")
      (by decide)⟩

/-- C5, counterexample: one invocation on a text that already holds two
copies of the link line leaves both copies in place, so the link line does
not appear exactly once after an invocation. -/
theorem append_invocations_once_cex :
    countOcc (lineOf (cs "") (cs "A"))
        ((fun s => computeAppend s (cs "#") (cs "") (cs "A"))^[1]
          (cs "#\n[[A]]\n[[A]]")) ≠ 1 := by decide

/-- C5, amended: for an escape-free template, after any number `n ≥ 1` of
invocations the text equals the text after one invocation (repeats add
nothing), and the link line appears at least once in it; it can appear more
than once when the initial text already contained several copies. -/
theorem append_invocations_stable (t h pre lnk : List Char) (n : Nat)
    (hesc : escFreeB (h ++ nl ++ lineOf pre lnk) = true) (hn : 1 ≤ n) :
    (fun s => computeAppend s h pre lnk)^[n] t = computeAppend t h pre lnk ∧
    1 ≤ countOcc (lineOf pre lnk)
          ((fun s => computeAppend s h pre lnk)^[n] t) := by
  have hstable : ∀ m : Nat,
      (fun s => computeAppend s h pre lnk)^[m + 1] t = computeAppend t h pre lnk := by
    intro m
    induction m with
    | zero => rw [Function.iterate_one]
    | succ k ih =>
      rw [Function.iterate_succ_apply', ih]
      exact computeAppend_idem t h pre lnk hesc
  obtain ⟨m, rfl⟩ : ∃ m, n = m + 1 := ⟨n - 1, by omega⟩
  refine ⟨hstable m, ?_⟩
  rw [hstable m]
  exact countOcc_pos _ _ (computeAppend_has_line t h pre lnk hesc)

/-- C5, witness: two invocations starting from the empty document with
`heading = "#"`, `linePrefix = "- "`, `linkText = "A"`. -/
theorem append_invocations_stable_witness :
    escFreeB (cs "#" ++ nl ++ lineOf (cs "- ") (cs "A")) = true ∧ 1 ≤ 2 ∧
    ((fun s => computeAppend s (cs "#") (cs "- ") (cs "A"))^[2] (cs "") =
        computeAppend (cs "") (cs "#") (cs "- ") (cs "A") ∧
      1 ≤ countOcc (lineOf (cs "- ") (cs "A"))
            ((fun s => computeAppend s (cs "#") (cs "- ") (cs "A"))^[2] (cs ""))) :=
  ⟨by decide, by decide,
    append_invocations_stable (cs "") (cs "#") (cs "- ") (cs "A") 2
      (by decide) (by decide)⟩

/-- C6: with an available collection, a lookup hit is returned with no
creation invocation, and a lookup miss invokes creation exactly once and
returns the created note. -/
theorem getOrCreateMonthlyNote_resolution {π γ ν : Type} (p : π) (coll : γ)
    (getNote : π → γ → Option ν) (createNote : π → Except Unit ν) :
    (∀ note, getNote p coll = some note →
      getOrCreateMonthlyNote p (Except.ok coll) getNote createNote =
        ⟨Except.ok note, [], []⟩) ∧
    (∀ note, getNote p coll = none → createNote p = Except.ok note →
      getOrCreateMonthlyNote p (Except.ok coll) getNote createNote =
        ⟨Except.ok note, [p], []⟩) := by
  constructor
  · intro note hsome
    simp [getOrCreateMonthlyNote, hsome]
  · intro note hnone hcr
    simp [getOrCreateMonthlyNote, hnone, hcr]

/-- C6, witness: a collection (modelled as `Option Nat`) that holds note 5,
and an empty one whose creation yields note 7, both at period 1. -/
theorem getOrCreateMonthlyNote_resolution_witness :
    getOrCreateMonthlyNote 1 (Except.ok (some 5))
        (fun (_ : Nat) (c : Option Nat) => c) (fun _ => Except.ok 7) =
      ⟨Except.ok 5, [], []⟩ ∧
    getOrCreateMonthlyNote 1 (Except.ok (none : Option Nat))
        (fun (_ : Nat) (c : Option Nat) => c) (fun _ => Except.ok 7) =
      ⟨Except.ok 7, [1], []⟩ :=
  ⟨(getOrCreateMonthlyNote_resolution 1 (some 5)
      (fun _ c => c) (fun _ => Except.ok 7)).1 5 rfl,
    (getOrCreateMonthlyNote_resolution 1 (none : Option Nat)
      (fun _ c => c) (fun _ => Except.ok 7)).2 7 rfl rfl⟩

/-- C7: when enumerating the collection fails, the resolver fails with
`collectionUnavailable`, shows the corresponding notification, and performs
no creation (the creation list is empty). -/
theorem getOrCreateMonthlyNote_collection_unavailable {π γ ν : Type} (p : π)
    (getNote : π → γ → Option ν) (createNote : π → Except Unit ν) :
    getOrCreateMonthlyNote p (Except.error ()) getNote createNote =
      ⟨Except.error ResolveError.collectionUnavailable, [],
        ["Failed to find your monthly notes folder"]⟩ := rfl

/-- C8: when the lookup misses and creation fails, the whole action fails
with `creationFailed` (one creation attempt, the failure notification), and
no note text is read and no note text is written. -/
theorem addLink_creation_failed {π γ ν : Type} (p : π) (coll : γ)
    (getNote : π → γ → Option ν) (readNote : ν → List Char)
    (heading pre noteLink : List Char) (noteName basename : String)
    (hnone : getNote p coll = none) :
    addLinkInMonthlyNote true p (Except.ok coll) getNote (fun _ => Except.error ())
        readNote heading pre noteLink noteName basename =
      ⟨[p], [], [], ["Failed to create monthly note in notes folder"]⟩ ∧
    (getOrCreateMonthlyNote p (Except.ok coll) getNote
        (fun _ => Except.error ())).result =
      Except.error ResolveError.creationFailed := by
  constructor
  · simp [addLinkInMonthlyNote, getOrCreateMonthlyNote, hnone]
  · simp [getOrCreateMonthlyNote, hnone]

/-- C8, witness: a one-note universe over `Nat` where the lookup misses. -/
theorem addLink_creation_failed_witness :
    (fun (_ : Nat) (_ : Nat) => (none : Option Nat)) 0 0 = none ∧
    (addLinkInMonthlyNote true 0 (Except.ok 0)
          (fun (_ : Nat) (_ : Nat) => (none : Option Nat))
          (fun _ => Except.error ()) (fun (_ : Nat) => ([] : List Char))
          [] [] [] "" "" =
        ⟨[0], [], [], ["Failed to create monthly note in notes folder"]⟩ ∧
      (getOrCreateMonthlyNote 0 (Except.ok 0)
          (fun (_ : Nat) (_ : Nat) => (none : Option Nat))
          (fun _ => Except.error ())).result =
        Except.error ResolveError.creationFailed) :=
  ⟨rfl,
    addLink_creation_failed 0 0 (fun _ _ => none)
      (fun _ => []) [] [] [] "" "" rfl⟩

/-- C9: the section-append computation is a deterministic total function of
its four string inputs: equal inputs give equal outputs, and on every input
(the empty strings included) the result is one of the three branch
outcomes, so the computation always produces a value. -/
theorem computeAppend_deterministic_total (t1 h1 p1 l1 t2 h2 p2 l2 : List Char)
    (ht : t1 = t2) (hh : h1 = h2) (hp : p1 = p2) (hl : l1 = l2) :
    computeAppend t1 h1 p1 l1 = computeAppend t2 h2 p2 l2 ∧
    (computeAppend t1 h1 p1 l1 = t1 ∨
      computeAppend t1 h1 p1 l1 =
        replaceFirstJS t1 h1 (h1 ++ nl ++ lineOf p1 l1) ∨
      computeAppend t1 h1 p1 l1 = t1 ++ nl ++ h1 ++ nl ++ lineOf p1 l1) := by
  subst ht; subst hh; subst hp; subst hl
  refine ⟨rfl, ?_⟩
  rw [computeAppend]
  by_cases hht : h1 <:+: t1
  · by_cases hlt : lineOf p1 l1 <:+: t1
    · left; simp only [if_pos hht, if_pos hlt]
    · right; left; simp only [if_pos hht, if_neg hlt]
  · right; right; simp only [if_neg hht]

/-- C9, witness at four empty strings. -/
theorem computeAppend_deterministic_total_witness :
    ([] : List Char) = [] ∧
    (computeAppend [] [] [] [] = computeAppend [] [] [] [] ∧
      (computeAppend [] [] [] [] = [] ∨
        computeAppend [] [] [] [] = replaceFirstJS [] [] ([] ++ nl ++ lineOf [] []) ∨
        computeAppend [] [] [] [] = [] ++ nl ++ [] ++ nl ++ lineOf [] [])) :=
  ⟨rfl, computeAppend_deterministic_total [] [] [] [] [] [] [] [] rfl rfl rfl rfl⟩

/-- C10: duplicate suppression only applies when the heading is present:
a text without the heading but already holding the link line still gets the
new section appended, and the link line then occurs at least twice. -/
theorem computeAppend_duplicate_when_heading_absent (t h pre lnk : List Char)
    (hh : ¬ h <:+: t) (hl : lineOf pre lnk <:+: t) :
    computeAppend t h pre lnk = t ++ nl ++ h ++ nl ++ lineOf pre lnk ∧
    2 ≤ countOcc (lineOf pre lnk) (computeAppend t h pre lnk) := by
  have heq := computeAppend_append t h pre lnk hh
  refine ⟨heq, ?_⟩
  rw [heq]
  have h1 : 1 ≤ countOcc (lineOf pre lnk) t := countOcc_pos _ _ hl
  have h2 : 1 ≤ countOcc (lineOf pre lnk) (nl ++ h ++ nl ++ lineOf pre lnk) :=
    countOcc_pos _ _ ⟨nl ++ h ++ nl, [], by simp⟩
  have h3 := countOcc_append_ge (lineOf pre lnk) (lineOf_ne_nil pre lnk) t
    (nl ++ h ++ nl ++ lineOf pre lnk)
  have hassoc : t ++ nl ++ h ++ nl ++ lineOf pre lnk =
      t ++ (nl ++ h ++ nl ++ lineOf pre lnk) := by
    simp [List.append_assoc]
  rw [hassoc]
  omega

/-- C10, witness: `currentText = "[[A]]"` already holds the link line
`"[[A]]"`, the heading `"#"` is absent; the line is appended anyway. -/
theorem computeAppend_duplicate_when_heading_absent_witness :
    ¬ (cs "#" <:+: cs "[[A]]") ∧ (lineOf (cs "") (cs "A") <:+: cs "[[A]]") ∧
    (computeAppend (cs "[[A]]") (cs "#") (cs "") (cs "A") =
        cs "[[A]]" ++ nl ++ cs "#" ++ nl ++ lineOf (cs "") (cs "A") ∧
      2 ≤ countOcc (lineOf (cs "") (cs "A"))
            (computeAppend (cs "[[A]]") (cs "#") (cs "") (cs "A"))) :=
  ⟨by decide, by decide,
    computeAppend_duplicate_when_heading_absent (cs "[[A]]") (cs "#") (cs "")
      (cs "A") (by decide) (by decide)⟩

end MonthlyReview
